import Mathlib

/-!
Shallow embedding of the pystackreg core (`pystackreg.py`): the matrix
convention converter, the single-pair registrar, the stack registration
algorithm and the moving-average preprocessor, together with theorems that
settle the specification claims about them.

Images and stacks are modelled as shape-annotated total functions into ℚ
(the Python code works on `numpy` double arrays; the algorithms under
verification are exact index bookkeeping and rational arithmetic, so ℚ is a
faithful carrier).  The external TurboReg engine is an explicit parameter
(`Engine`), mirroring its role as an out-of-scope collaborator.
-/

/-- Reference-mode string `previous`. -/
def strPrevious : String := "previous"

/-- Reference-mode string `first`. -/
def strFirst : String := "first"

/-- Reference-mode string `mean`. -/
def strMean : String := "mean"

/-- The error message of `transform()` without a prior `register()`. -/
def errRegisterFirst : String := "Register first"

/-- The error message of the bilinear conversion branches. -/
def errBilinear : String := "Bilinear transformation matrix not supported"

/-- The Python `UnboundLocalError` text for a read of the unassigned `ref`. -/
def errUnboundRef : String := "local variable ref referenced before assignment"

/-- The Python `TypeError`-ish marker for passing a `None` matrix on. -/
def errNoneType : String := "NoneType"

/-- A canonical 3×3 homogeneous transformation matrix (`ndarray(3,3)`). -/
abbrev M3 := Fin 3 → Fin 3 → ℚ

/-- The identity matrix `np.identity(3)`. -/
def idMat : M3 := fun i j => if i = j then 1 else 0

/-- Product as in `np.matmul` on 3×3 matrices: row i of `a` against column k of `b`. -/
def matmul (a b : M3) : M3 :=
  fun i k => a i 0 * b 0 k + a i 1 * b 1 k + a i 2 * b 2 k

/-- The transformation families accepted by the `StackReg` constructor
(integer codes 2, 3, 4, 6, 8 in the Python source). -/
inductive Transformation where
  | translation
  | rigid_body
  | scaled_rotation
  | affine
  | bilinear
  deriving DecidableEq

/-- The shape of the TurboReg compact ("short") matrix for each family:
2×1 for translation, 2×3 for the affine-like families, 2×4 for bilinear. -/
def CompactType : Transformation → Type
  | .translation => Fin 2 → Fin 1 → ℚ
  | .bilinear => Fin 2 → Fin 4 → ℚ
  | _ => Fin 2 → Fin 3 → ℚ

/-- Widen a row index of the 2×k compact matrix to a 3×3 row index. -/
def fin2to3 (i : Fin 2) : Fin 3 := ⟨i.val, by omega⟩

/-- The column reordering `m[:, [1, 2, 0]]` of `_matrix_short_to_long`. -/
def permS2L (j : Fin 3) : Fin 3 :=
  if j = 0 then 1 else if j = 1 then 2 else 0

/-- The column reordering `mat[0:2, [2, 0, 1]]` of `_matrix_long_to_short`. -/
def permL2S (j : Fin 3) : Fin 3 :=
  if j = 0 then 2 else if j = 1 then 0 else 1

/-- Conversion `_matrix_short_to_long` for the affine-like families: start from the
identity and overwrite rows 0..1 with the reordered compact columns. -/
def affineS2L (m : Fin 2 → Fin 3 → ℚ) : M3 :=
  fun i j => if hi : i.val < 2 then m ⟨i.val, hi⟩ (permS2L j) else idMat i j

/-- Conversion `_matrix_short_to_long` for translation: identity with the compact
2×1 vector written into the top of column 2 (`mat[0:2, 2] = m[:, 0]`). -/
def translationS2L (m : Fin 2 → Fin 1 → ℚ) : M3 :=
  fun i j =>
    if hi : i.val < 2 then
      if j = (2 : Fin 3) then m ⟨i.val, hi⟩ 0 else idMat i j
    else idMat i j

/-- Method `StackReg._matrix_short_to_long`: compact (TurboReg) form to canonical
3×3 form; raises for the bilinear family. -/
def matrix_short_to_long : (t : Transformation) → CompactType t → Except String M3
  | .translation, m => .ok (translationS2L m)
  | .rigid_body, m => .ok (affineS2L m)
  | .scaled_rotation, m => .ok (affineS2L m)
  | .affine, m => .ok (affineS2L m)
  | .bilinear, _ => .error errBilinear

/-- Method `StackReg._matrix_long_to_short`: canonical 3×3 form to compact
(TurboReg) form; raises for the bilinear family. -/
def matrix_long_to_short : (t : Transformation) → M3 → Except String (CompactType t)
  | .translation, mat => .ok (fun i _ => mat (fin2to3 i) 2)
  | .rigid_body, mat => .ok (fun i j => mat (fin2to3 i) (permL2S j))
  | .scaled_rotation, mat => .ok (fun i j => mat (fin2to3 i) (permL2S j))
  | .affine, mat => .ok (fun i j => mat (fin2to3 i) (permL2S j))
  | .bilinear, _ => .error errBilinear

/-- A 2-D image: row and column counts plus a total data function
(entries outside the shape are irrelevant to every operation). -/
structure Image2 where
  rows : Nat
  cols : Nat
  data : Nat → Nat → ℚ

/-- The `ref[:-1, :-1]` cropping done by `StackReg.register` before the
engine call: drop the last row and column. -/
def Image2.crop (im : Image2) : Image2 :=
  ⟨im.rows - 1, im.cols - 1, im.data⟩

/-- A 3-D stack: the three shape components and a total data function. -/
structure Arr3 where
  s0 : Nat
  s1 : Nat
  s2 : Nat
  data : Nat → Nat → Nat → ℚ

/-- The dimension `img.shape[axis]`. -/
def Arr3.dim (a : Arr3) (axis : Fin 3) : Nat :=
  if axis = 0 then a.s0 else if axis = 1 then a.s1 else a.s2

/-- Resolution of a (possibly negative) Python/numpy index along an axis of
length `n`: negative indices wrap around from the end. -/
def wrapIdx (idx : Int) (n : Nat) : Nat :=
  if idx < 0 then (idx + n).toNat else idx.toNat

/-- Frame selection `img.take(idx, axis=axis)` for an integer index (also what
`simple_slice(img, idx, axis)` yields): the 2-D frame at `idx` along
`axis`, with numpy's negative-index wrap-around. -/
def Arr3.takeFrame (a : Arr3) (idx : Int) (axis : Fin 3) : Image2 :=
  if axis = 0 then ⟨a.s1, a.s2, fun i j => a.data (wrapIdx idx a.s0) i j⟩
  else if axis = 1 then ⟨a.s0, a.s2, fun i j => a.data i (wrapIdx idx a.s1) j⟩
  else ⟨a.s0, a.s1, fun i j => a.data i j (wrapIdx idx a.s2)⟩

/-- The mean `img.mean(axis=axis)`: elementwise mean of the stack along an axis. -/
def Arr3.meanAxis (a : Arr3) (axis : Fin 3) : Image2 :=
  if axis = 0 then
    ⟨a.s1, a.s2, fun i j => (∑ t in Finset.range a.s0, a.data t i j) / (a.s0 : ℚ)⟩
  else if axis = 1 then
    ⟨a.s0, a.s2, fun i j => (∑ t in Finset.range a.s1, a.data i t j) / (a.s1 : ℚ)⟩
  else
    ⟨a.s0, a.s1, fun i j => (∑ t in Finset.range a.s2, a.data i j t) / (a.s2 : ℚ)⟩

/-- Evaluation of `np.mean(img.take(range(n_frames), axis=axis), axis=axis)`: the mean of
the first `nf` frames along `axis` (the `reference='first'` reference). -/
def meanFirstFrames (a : Arr3) (nf : Nat) (axis : Fin 3) : Image2 :=
  if axis = 0 then
    ⟨a.s1, a.s2, fun i j => (∑ t in Finset.range nf, a.data t i j) / (nf : ℚ)⟩
  else if axis = 1 then
    ⟨a.s0, a.s2, fun i j => (∑ t in Finset.range nf, a.data i t j) / (nf : ℚ)⟩
  else
    ⟨a.s0, a.s1, fun i j => (∑ t in Finset.range nf, a.data i j t) / (nf : ℚ)⟩

/-- The clamped source index used by `np.pad(..., 'edge')`: positions in
the leading pad read the first entry, positions after the data read the
last entry. -/
def padIdx (j padTop n : Nat) : Nat :=
  if j < padTop then 0 else min (j - padTop) (n - 1)

/-- Padding `np.pad(x, pad_width, 'edge')` with `pad_width[axis] =
[ceil(N/2), floor(N/2)]` and zero padding on the other axes. -/
def pad_edge (x : Arr3) (N : Nat) (axis : Fin 3) : Arr3 :=
  let pt := (N + 1) / 2
  if axis = 0 then ⟨x.s0 + N, x.s1, x.s2, fun i j k => x.data (padIdx i pt x.s0) j k⟩
  else if axis = 1 then ⟨x.s0, x.s1 + N, x.s2, fun i j k => x.data i (padIdx j pt x.s1) k⟩
  else ⟨x.s0, x.s1, x.s2 + N, fun i j k => x.data i j (padIdx k pt x.s2)⟩

/-- Prefix sums `np.cumsum(-, axis=axis)`: inclusive prefix sums along an axis. -/
def cumsumAxis (x : Arr3) (axis : Fin 3) : Arr3 :=
  if axis = 0 then ⟨x.s0, x.s1, x.s2, fun i j k => ∑ t in Finset.range (i + 1), x.data t j k⟩
  else if axis = 1 then ⟨x.s0, x.s1, x.s2, fun i j k => ∑ t in Finset.range (j + 1), x.data i t k⟩
  else ⟨x.s0, x.s1, x.s2, fun i j k => ∑ t in Finset.range (k + 1), x.data i j t⟩

/-- The preprocessor `running_mean(x, N, axis)`: pad with edge values along `axis`, take the
cumulative sum along `axis`, then return `(cumsum[N:] - cumsum[:-N]) / N`.
Note that the final slicing `[N:]`/`[:-N]` acts on the FIRST axis of the
cumulative-sum array no matter what `axis` was, exactly as in the source. -/
def running_mean (x : Arr3) (N : Nat) (axis : Fin 3) : Arr3 :=
  let c := cumsumAxis (pad_edge x N axis) axis
  ⟨c.s0 - N, c.s1, c.s2, fun i j k => (c.data (i + N) j k - c.data i j k) / (N : ℚ)⟩

/-- A stored point list (the engine's correspondence points). -/
abbrev PtList := List (ℚ × ℚ)

/-- The external TurboReg engine (`turboreg._register` / `turboreg._transform`),
an out-of-scope collaborator: a deterministic oracle producing a compact
matrix and two point sets from an image pair, and warping an image by a
compact matrix. -/
structure Engine where
  register : Image2 → Image2 → (t : Transformation) → CompactType t × PtList × PtList
  transform : Image2 → (t : Transformation) → CompactType t → Image2

/-- The matrix computed by one `StackReg.register(ref, mov)` call: crop both
images, invoke the engine, convert the compact result to canonical form.
(The registrar's state updates are handled by `StackReg.register` below;
the returned matrix depends only on the inputs.) -/
def registerPure (e : Engine) (t : Transformation) (ref mov : Image2) : Except String M3 :=
  matrix_short_to_long t (e.register ref.crop mov.crop t).1

/-- The mutable state of a `StackReg` instance. -/
structure StackReg where
  transformation : Transformation
  m : Option (CompactType transformation)
  tmats : Option (List M3)
  refpts : Option PtList
  movpts : Option PtList
  is_registered : Bool

/-- Method `StackReg.register`: set the registered flag, store the engine's compact
matrix and point sets, then return `get_matrix()` (the canonical form, which
raises for the bilinear family).  All stores happen before the conversion. -/
def StackReg.register (e : Engine) (s : StackReg) (ref mov : Image2) :
    StackReg × Except String M3 :=
  let r := e.register ref.crop mov.crop s.transformation
  ({ s with
      is_registered := true
      m := some r.1
      refpts := some r.2.1
      movpts := some r.2.2 },
    matrix_short_to_long s.transformation r.1)

/-- Method `StackReg.transform`: with no explicit matrix the registered flag must be
set (else `Register first`); an explicit canonical matrix is converted to
compact form and passed to the engine, bypassing that check. -/
def StackReg.transform (e : Engine) (s : StackReg) (mov : Image2) (tmat : Option M3) :
    Except String Image2 :=
  match tmat with
  | none =>
    if s.is_registered then
      match s.m with
      | some c => .ok (e.transform mov s.transformation c)
      | none => .error errNoneType
    else .error errRegisterFirst
  | some t => (matrix_long_to_short s.transformation t).map
      (fun c => e.transform mov s.transformation c)

/-- Method `StackReg.set_matrix`: store the compact form of a canonical matrix;
does not touch the registered flag. -/
def StackReg.set_matrix (s : StackReg) (mat : M3) : StackReg × Except String Unit :=
  match matrix_long_to_short s.transformation mat with
  | .ok c => ({ s with m := some c }, .ok ())
  | .error msg => (s, .error msg)

/-- The body of `register_stack`'s frame loop, by remaining-iteration count:
at index `i`, under `previous` the reference is re-read as the frame at
`i - 1` (for any other mode the carried reference is used; an unset carried
reference is Python's `UnboundLocalError`); the frame is registered, the
result stored at index `i`, and under `previous` with `i > 0` it is
right-multiplied by the accumulated matrix at `i - 1`. -/
def rsLoop (e : Engine) (t : Transformation) (img : Arr3) (reference : String) (axis : Fin 3) :
    Nat → Nat → Option Image2 → List M3 → Except String (List M3)
  | 0, _, _, tmats => .ok tmats
  | fuel + 1, i, refc, tmats =>
    let refc' := if reference = strPrevious then some (img.takeFrame ((i : Int) - 1) axis) else refc
    match refc' with
    | none => .error errUnboundRef
    | some ref =>
      match registerPure e t ref (img.takeFrame (i : Int) axis) with
      | .error msg => .error msg
      | .ok m =>
        let tm1 := tmats.set i m
        let tm2 :=
          if reference = strPrevious ∧ 0 < i then
            tm1.set i (matmul m (tm1.getD (i - 1) idMat))
          else tm1
        rsLoop e t img reference axis fuel (i + 1) refc' tm2

/-- The stack that `register_stack` actually iterates over: the input, or
its running mean when `moving_average > 1`. -/
def workingStack (img : Arr3) (moving_average : Nat) (axis : Fin 3) : Arr3 :=
  if 1 < moving_average then running_mean img moving_average axis else img

/-- Method `StackReg.register_stack`: optional moving-average smoothing (which also
moves the loop start to 0), an identity-initialised matrix stack of length
`img.shape[axis]`, reference resolution (`first`: mean of the first
`n_frames` frames along `axis`; `mean`: `img.mean(axis=0)` and loop start 0;
anything else leaves `ref` unassigned), then the frame loop. -/
def register_stack (e : Engine) (t : Transformation) (img0 : Arr3) (reference : String)
    (n_frames : Nat) (axis : Fin 3) (moving_average : Nat) : Except String (List M3) :=
  let img := workingStack img0 moving_average axis
  let idx_start0 := if 1 < moving_average then 0 else 1
  let n := img.dim axis
  let refStart : Option Image2 :=
    if reference = strFirst then some (meanFirstFrames img n_frames axis)
    else if reference = strMean then some (img.meanAxis 0)
    else none
  let idx_start := if reference = strMean then 0 else idx_start0
  rsLoop e t img reference axis (n - idx_start) idx_start refStart (List.replicate n idMat)

/-- Recover the `ok` form from a `toOption` evaluation. -/
theorem except_ok_of_toOption {α : Type} {r : Except String α} {x : α}
    (h : r.toOption = some x) : r = .ok x := by
  cases r with
  | ok a => simp [Except.toOption] at h; rw [h]
  | error msg => simp [Except.toOption] at h

/-- Reading `getD` after `set` at the written index, when the index is in range. -/
theorem getD_set_self (l : List M3) (i : Nat) (a : M3) (h : i < l.length) :
    (l.set i a).getD i idMat = a := by
  induction l generalizing i with
  | nil => simp at h
  | cons x xs ih =>
    cases i with
    | zero => simp
    | succ n => simpa using ih n (by simpa using h)

/-- Reading `getD` after `set` at a different index. -/
theorem getD_set_ne (l : List M3) (i j : Nat) (a : M3) (h : i ≠ j) :
    (l.set i a).getD j idMat = l.getD j idMat := by
  induction l generalizing i j with
  | nil => simp
  | cons x xs ih =>
    cases i with
    | zero => cases j with
      | zero => exact absurd rfl h
      | succ m => simp
    | succ n => cases j with
      | zero => simp
      | succ m => simpa using ih n m (by omega)

/-- The frame loop preserves the length of the matrix stack. -/
theorem rsLoop_length (e : Engine) (t : Transformation) (img : Arr3) (r : String) (axis : Fin 3) :
    ∀ fuel i refc tmats tm, rsLoop e t img r axis fuel i refc tmats = .ok tm →
      tm.length = tmats.length := by
  intro fuel
  induction fuel with
  | zero =>
    intro i refc tmats tm h
    simp only [rsLoop] at h
    injection h with h2
    rw [h2]
  | succ f ih =>
    intro i refc tmats tm h
    simp only [rsLoop] at h
    split at h
    · simp at h
    · split at h
      · simp at h
      · have hlen := ih _ _ _ _ h
        rw [hlen]
        split <;> simp

/-- Entries below the current loop index are never rewritten by the loop. -/
theorem rsLoop_frozen (e : Engine) (t : Transformation) (img : Arr3) (r : String) (axis : Fin 3) :
    ∀ fuel i refc tmats tm, rsLoop e t img r axis fuel i refc tmats = .ok tm →
      ∀ j, j < i → tm.getD j idMat = tmats.getD j idMat := by
  intro fuel
  induction fuel with
  | zero =>
    intro i refc tmats tm h j hj
    simp only [rsLoop] at h
    injection h with h2
    rw [h2]
  | succ f ih =>
    intro i refc tmats tm h j hj
    simp only [rsLoop] at h
    split at h
    · simp at h
    · split at h
      · simp at h
      · have hstep := ih _ _ _ _ h j (by omega)
        rw [hstep]
        have hji : i ≠ j := by omega
        split
        · rw [getD_set_ne _ _ _ _ hji, getD_set_ne _ _ _ _ hji]
        · rw [getD_set_ne _ _ _ _ hji]

/-- One unfolding step of the loop in `previous` mode: the reference is
the frame at `i - 1`, and the stored entry at `i` is composed with the
accumulated entry at `i - 1` when `i > 0`. -/
theorem rsLoop_prev_succ (e : Engine) (t : Transformation) (img : Arr3) (axis : Fin 3)
    (f i : Nat) (refc : Option Image2) (tmats : List M3) :
    rsLoop e t img strPrevious axis (f + 1) i refc tmats =
      match registerPure e t (img.takeFrame ((i : Int) - 1) axis)
          (img.takeFrame (i : Int) axis) with
      | .error msg => .error msg
      | .ok m =>
        rsLoop e t img strPrevious axis f (i + 1)
          (some (img.takeFrame ((i : Int) - 1) axis))
          (if 0 < i then
            (tmats.set i m).set i (matmul m ((tmats.set i m).getD (i - 1) idMat))
          else tmats.set i m) := by
  simp only [rsLoop, eq_self_iff_true, if_true, true_and]

/-- Characterisation of the loop under `previous` mode: every visited index
`k` holds the locally computed frame-`k`-to-frame-`(k-1)` matrix, composed
(for `k > 0`) with the accumulated matrix at `k - 1`. -/
theorem rsLoop_prev_entries (e : Engine) (t : Transformation) (img : Arr3) (axis : Fin 3) :
    ∀ fuel i refc tmats tm,
      rsLoop e t img strPrevious axis fuel i refc tmats = .ok tm →
      i + fuel ≤ tmats.length →
      ∀ k, i ≤ k → k < i + fuel →
      ∃ m, registerPure e t (img.takeFrame ((k : Int) - 1) axis)
              (img.takeFrame (k : Int) axis) = .ok m ∧
        tm.getD k idMat = if 0 < k then matmul m (tm.getD (k - 1) idMat) else m := by
  intro fuel
  induction fuel with
  | zero => intro i refc tmats tm h hlen k hk1 hk2; omega
  | succ f ih =>
    intro i refc tmats tm h hlen k hk1 hk2
    rw [rsLoop_prev_succ] at h
    split at h
    · simp at h
    next m hm =>
      have hilen : i < tmats.length := by omega
      rcases Nat.eq_or_lt_of_le hk1 with hk | hk
      · subst hk
        refine ⟨m, hm, ?_⟩
        have hfrozen := rsLoop_frozen e t img strPrevious axis f (i + 1) _ _ _ h
        have hk0 := hfrozen i (by omega)
        by_cases h0 : 0 < i
        · rw [if_pos h0] at hk0 ⊢
          have hk1' := hfrozen (i - 1) (by omega)
          rw [if_pos h0] at hk1'
          rw [hk0, hk1']
          rw [getD_set_self _ _ _ (by simpa using hilen),
            getD_set_ne _ _ _ _ (by omega), getD_set_ne _ _ _ _ (by omega),
            getD_set_ne _ _ _ _ (by omega)]
        · rw [if_neg h0] at hk0 ⊢
          rw [hk0, getD_set_self _ _ _ hilen]
      · have hlen2 : (i + 1) + f ≤ (if 0 < i then
            (tmats.set i m).set i (matmul m ((tmats.set i m).getD (i - 1) idMat))
          else tmats.set i m).length := by
          split <;> simp <;> omega
        exact ih _ _ _ _ h hlen2 k (by omega) (by omega)

/-- The canonical-matrix shape of each non-bilinear family: bottom row
`[0, 0, 1]`, and for translation additionally an identity linear part. -/
def isCanonicalForm : Transformation → M3 → Prop
  | .translation, m => m 0 0 = 1 ∧ m 0 1 = 0 ∧ m 1 0 = 0 ∧ m 1 1 = 1 ∧
      m 2 0 = 0 ∧ m 2 1 = 0 ∧ m 2 2 = 1
  | _, m => m 2 0 = 0 ∧ m 2 1 = 0 ∧ m 2 2 = 1

/-- Compact-side round trip for the affine-like column permutation. -/
theorem affine_round_compact (c : Fin 2 → Fin 3 → ℚ) :
    (fun i j => affineS2L c (fin2to3 i) (permL2S j)) = c := by
  funext i j
  fin_cases i <;> fin_cases j <;> rfl

/-- Canonical-side round trip for the affine-like column permutation. -/
theorem affine_round_canonical (m : M3) (h20 : m 2 0 = 0) (h21 : m 2 1 = 0)
    (h22 : m 2 2 = 1) :
    affineS2L (fun i j => m (fin2to3 i) (permL2S j)) = m := by
  funext i j
  fin_cases i <;> fin_cases j <;>
    simp_all [affineS2L, idMat, permS2L, permL2S, fin2to3]

/-- Compact-side round trip for the translation conversion. -/
theorem translation_round_compact (c : Fin 2 → Fin 1 → ℚ) :
    (fun i (_ : Fin 1) => translationS2L c (fin2to3 i) 2) = c := by
  funext i j
  fin_cases i <;> fin_cases j <;> rfl

/-- Canonical-side round trip for the translation conversion. -/
theorem translation_round_canonical (m : M3) (h : isCanonicalForm .translation m) :
    translationS2L (fun i (_ : Fin 1) => m (fin2to3 i) 2) = m := by
  obtain ⟨h00, h01, h10, h11, h20, h21, h22⟩ := h
  funext i j
  fin_cases i <;> fin_cases j <;>
    simp_all [translationS2L, idMat, fin2to3]

/-- C5: for every family in {Translation, RigidBody, ScaledRotation, Affine}
(all but Bilinear), `_matrix_short_to_long` and `_matrix_long_to_short` are
mutually inverse: compact → canonical → compact is the identity on all
compact matrices, and canonical → compact → canonical is the identity on
all canonical matrices of that family (bottom row `[0,0,1]`, and identity
linear part in the translation case). -/
theorem matrix_conversion_round_trip (t : Transformation) (ht : t ≠ .bilinear) :
    (∀ c : CompactType t,
      (matrix_short_to_long t c).bind (matrix_long_to_short t) = .ok c) ∧
    (∀ m : M3, isCanonicalForm t m →
      (matrix_long_to_short t m).bind (matrix_short_to_long t) = .ok m) := by
  cases t with
  | bilinear => exact absurd rfl ht
  | translation =>
    constructor
    · intro c
      show Except.ok (fun i (_ : Fin 1) => translationS2L c (fin2to3 i) 2) = Except.ok c
      exact congrArg Except.ok (translation_round_compact c)
    · intro m hm
      show Except.ok (translationS2L (fun i (_ : Fin 1) => m (fin2to3 i) 2)) = Except.ok m
      exact congrArg Except.ok (translation_round_canonical m hm)
  | rigid_body =>
    constructor
    · intro c
      show Except.ok (fun i j => affineS2L c (fin2to3 i) (permL2S j)) = Except.ok c
      exact congrArg Except.ok (affine_round_compact c)
    · intro m hm
      show Except.ok (affineS2L (fun i j => m (fin2to3 i) (permL2S j))) = Except.ok m
      exact congrArg Except.ok (affine_round_canonical m hm.1 hm.2.1 hm.2.2)
  | scaled_rotation =>
    constructor
    · intro c
      show Except.ok (fun i j => affineS2L c (fin2to3 i) (permL2S j)) = Except.ok c
      exact congrArg Except.ok (affine_round_compact c)
    · intro m hm
      show Except.ok (affineS2L (fun i j => m (fin2to3 i) (permL2S j))) = Except.ok m
      exact congrArg Except.ok (affine_round_canonical m hm.1 hm.2.1 hm.2.2)
  | affine =>
    constructor
    · intro c
      show Except.ok (fun i j => affineS2L c (fin2to3 i) (permL2S j)) = Except.ok c
      exact congrArg Except.ok (affine_round_compact c)
    · intro m hm
      show Except.ok (affineS2L (fun i j => m (fin2to3 i) (permL2S j))) = Except.ok m
      exact congrArg Except.ok (affine_round_canonical m hm.1 hm.2.1 hm.2.2)

/-- Calling `set_matrix` never touches the registered flag. -/
theorem set_matrix_preserves_flag (s : StackReg) (mat : M3) :
    ((StackReg.set_matrix s mat).1).is_registered = s.is_registered := by
  unfold StackReg.set_matrix
  split <;> rfl

/-- Calling `transform` with no explicit matrix on an unregistered state raises
`Register first`. -/
theorem transform_none_unregistered (e : Engine) (s : StackReg) (mov : Image2)
    (h : s.is_registered = false) :
    StackReg.transform e s mov none = .error errRegisterFirst := by
  unfold StackReg.transform
  rw [h]
  rfl

/-- The only error `_matrix_long_to_short` can raise is the bilinear one. -/
theorem long_to_short_error (tr : Transformation) (mat : M3) (msg : String)
    (h : matrix_long_to_short tr mat = .error msg) : msg = errBilinear := by
  cases tr <;> simp [matrix_long_to_short] at h
  exact h.symm

/-- Calling `transform` with an explicit matrix never raises `Register first`. -/
theorem transform_some_no_register_check (e : Engine) (s : StackReg) (mov : Image2)
    (tmat : M3) :
    StackReg.transform e s mov (some tmat) ≠ .error errRegisterFirst := by
  show Except.map (fun c => e.transform mov s.transformation c)
      (matrix_long_to_short s.transformation tmat) ≠ .error errRegisterFirst
  cases hml : matrix_long_to_short s.transformation tmat with
  | ok c => simp [Except.map]
  | error msg =>
    have hb := long_to_short_error _ _ _ hml
    subst hb
    intro hc
    rw [Except.map] at hc
    injection hc with hc
    exact absurd hc (by decide)

/-- C7: on a registrar whose registered flag was never set by `register`,
`transform` with no explicit matrix fails with `Register first` even after a
prior `set_matrix` call, while an explicit matrix argument bypasses that
check (it can never produce the `Register first` error). -/
theorem transform_requires_register (e : Engine) (tr : Transformation)
    (m0 : Option (CompactType tr)) (tms : Option (List M3)) (rp mp : Option PtList)
    (mat : M3) (mov : Image2) :
    StackReg.transform e ((StackReg.set_matrix ⟨tr, m0, tms, rp, mp, false⟩ mat).1)
        mov none = .error errRegisterFirst ∧
    ∀ tmat : M3,
      StackReg.transform e ((StackReg.set_matrix ⟨tr, m0, tms, rp, mp, false⟩ mat).1)
        mov (some tmat) ≠ .error errRegisterFirst := by
  constructor
  · exact transform_none_unregistered e _ mov (set_matrix_preserves_flag _ mat)
  · intro tmat
    exact transform_some_no_register_check e _ mov tmat

/-- C9: with the Bilinear family, `register` raises the bilinear conversion
error, but only after storing the engine's compact matrix and point sets and
setting the registered flag, so a subsequent `transform` with no explicit
matrix succeeds using the stored bilinear matrix. -/
theorem bilinear_register_stores_then_raises (e : Engine)
    (m0 : Option (CompactType .bilinear)) (tms : Option (List M3))
    (rp mp : Option PtList) (flag : Bool) (ref mov mov2 : Image2) :
    (StackReg.register e ⟨.bilinear, m0, tms, rp, mp, flag⟩ ref mov).2 =
      .error errBilinear ∧
    (StackReg.register e ⟨.bilinear, m0, tms, rp, mp, flag⟩ ref mov).1.is_registered =
      true ∧
    (StackReg.register e ⟨.bilinear, m0, tms, rp, mp, flag⟩ ref mov).1.m =
      some (e.register ref.crop mov.crop .bilinear).1 ∧
    StackReg.transform e (StackReg.register e ⟨.bilinear, m0, tms, rp, mp, flag⟩ ref mov).1
        mov2 none =
      .ok (e.transform mov2 .bilinear (e.register ref.crop mov.crop .bilinear).1) := by
  exact ⟨rfl, rfl, rfl, rfl⟩

/-- C1: under `previous` mode, every frame index `i > 0` that the loop
visits ends up holding (locally computed frame-`i`-to-frame-`(i-1)` matrix)
× (accumulated matrix at index `i-1`), in that multiplication order. -/
theorem register_stack_previous_composes (e : Engine) (t : Transformation)
    (img0 : Arr3) (nf : Nat) (axis : Fin 3) (ma : Nat) (tm : List M3)
    (h : register_stack e t img0 strPrevious nf axis ma = .ok tm)
    (i : Nat) (h0 : 0 < i) (hi : i < tm.length) :
    ∃ m, registerPure e t ((workingStack img0 ma axis).takeFrame ((i : Int) - 1) axis)
        ((workingStack img0 ma axis).takeFrame (i : Int) axis) = .ok m ∧
      tm.getD i idMat = matmul m (tm.getD (i - 1) idMat) := by
  simp only [register_stack] at h
  rw [if_neg (by decide : ¬ strPrevious = strFirst),
    if_neg (by decide : ¬ strPrevious = strMean)] at h
  have his : (if 1 < ma then 0 else 1) ≤ 1 := by split <;> omega
  have hlen := rsLoop_length _ _ _ _ _ _ _ _ _ _ h
  rw [List.length_replicate] at hlen
  obtain ⟨m, hm, hcomp⟩ := rsLoop_prev_entries e t _ axis _ _ _ _ _ h
    (by rw [List.length_replicate]; omega) i (by omega) (by omega)
  exact ⟨m, hm, by rwa [if_pos h0] at hcomp⟩

/-- Reading `getD 0` of an identity-initialised matrix stack is the identity. -/
theorem getD_zero_replicate_idMat (n : Nat) :
    (List.replicate n idMat).getD 0 idMat = idMat := by
  cases n <;> rfl

/-- C2 (amended): under `previous` mode WITHOUT moving-average smoothing
(window ≤ 1), the matrix at index 0 of the returned stack is the identity:
the loop starts at index 1 and never touches index 0. -/
theorem register_stack_previous_no_ma_matrix0_identity (e : Engine)
    (t : Transformation) (img0 : Arr3) (nf : Nat) (axis : Fin 3) (ma : Nat)
    (tm : List M3) (hma : ma ≤ 1)
    (h : register_stack e t img0 strPrevious nf axis ma = .ok tm) :
    tm.getD 0 idMat = idMat := by
  simp only [register_stack] at h
  rw [if_neg (by decide : ¬ strPrevious = strFirst),
    if_neg (by decide : ¬ strPrevious = strMean),
    if_neg (by omega : ¬ 1 < ma)] at h
  have h0 := rsLoop_frozen _ _ _ _ _ _ _ _ _ _ h 0 (by omega)
  rw [h0, getD_zero_replicate_idMat]

/-- C4 (amended): an invalid reference mode is not validated up front; with
no moving average and at least two frames the loop's first iteration reads
the never-assigned `ref` variable and fails with an unbound-local error. -/
theorem register_stack_invalid_reference_unbound (e : Engine) (t : Transformation)
    (img0 : Arr3) (r : String) (nf : Nat) (axis : Fin 3) (ma : Nat)
    (hp : r ≠ strPrevious) (hf : r ≠ strFirst) (hm : r ≠ strMean)
    (hma : ma ≤ 1) (hn : 2 ≤ img0.dim axis) :
    register_stack e t img0 r nf axis ma = .error errUnboundRef := by
  simp only [register_stack, workingStack]
  simp only [if_neg hf, if_neg hm, if_neg (show ¬ 1 < ma by omega)]
  obtain ⟨f, hf2⟩ : ∃ f, img0.dim axis - 1 = f + 1 := ⟨img0.dim axis - 2, by omega⟩
  rw [hf2]
  simp only [rsLoop]
  rw [if_neg hp]

/-- On a nonempty axis, index `-1` resolves to the last valid index. -/
theorem wrapIdx_neg_one (n : Nat) (h : 1 ≤ n) :
    wrapIdx (-1) n = wrapIdx ((n : Int) - 1) n := by
  unfold wrapIdx
  rw [if_pos (by omega), if_neg (by omega)]
  omega

/-- Taking the frame at index `-1` is taking the last frame of the stack. -/
theorem takeFrame_neg_one (a : Arr3) (axis : Fin 3) (h : 1 ≤ a.dim axis) :
    a.takeFrame (-1 : Int) axis = a.takeFrame ((a.dim axis : Int) - 1) axis := by
  unfold Arr3.dim at h ⊢
  unfold Arr3.takeFrame
  by_cases h0 : axis = 0
  · simp only [if_pos h0] at h ⊢
    rw [wrapIdx_neg_one a.s0 h]
  · by_cases h1 : axis = 1
    · simp only [if_neg h0, if_pos h1] at h ⊢
      rw [wrapIdx_neg_one a.s1 h]
    · simp only [if_neg h0, if_neg h1] at h ⊢
      rw [wrapIdx_neg_one a.s2 h]

/-- C10: under `previous` mode with a moving-average window > 1, the loop
starts at index 0 over the smoothed stack, and the reference used for frame
0 is the frame at index `-1`, i.e. (by negative-index wrap-around) the last
frame of the smoothed stack. -/
theorem register_stack_previous_ma_frame0_ref_last (e : Engine) (t : Transformation)
    (img0 : Arr3) (nf : Nat) (axis : Fin 3) (ma : Nat) (tm : List M3)
    (hma : 2 ≤ ma)
    (h : register_stack e t img0 strPrevious nf axis ma = .ok tm)
    (hn : 1 ≤ tm.length) :
    tm.length = (running_mean img0 ma axis).dim axis ∧
    (∃ m, registerPure e t ((running_mean img0 ma axis).takeFrame (-1 : Int) axis)
        ((running_mean img0 ma axis).takeFrame (0 : Int) axis) = .ok m ∧
      tm.getD 0 idMat = m) ∧
    (running_mean img0 ma axis).takeFrame (-1 : Int) axis =
      (running_mean img0 ma axis).takeFrame (((tm.length : Nat) : Int) - 1) axis := by
  simp only [register_stack, workingStack] at h
  simp only [if_neg (by decide : ¬ strPrevious = strFirst),
    if_neg (by decide : ¬ strPrevious = strMean),
    if_pos (show 1 < ma by omega)] at h
  have hlen := rsLoop_length _ _ _ _ _ _ _ _ _ _ h
  rw [List.length_replicate] at hlen
  refine ⟨hlen, ?_, ?_⟩
  · obtain ⟨m, hm, hget⟩ := rsLoop_prev_entries e t _ axis _ _ _ _ _ h
      (by rw [List.length_replicate]; omega) 0 (by omega) (by omega)
    rw [if_neg (by omega : ¬ 0 < 0)] at hget
    refine ⟨m, ?_, hget⟩
    have h1 : ((0 : Nat) : Int) - 1 = (-1 : Int) := by norm_num
    have h2 : ((0 : Nat) : Int) = (0 : Int) := by norm_num
    rwa [h1, h2] at hm
  · rw [hlen]
    exact takeFrame_neg_one _ _ (by omega)

/-- A constant compact matrix (all entries 1) of each family. -/
def constCompact : (t : Transformation) → CompactType t
  | .translation => fun _ _ => 1
  | .rigid_body => fun _ _ => 1
  | .scaled_rotation => fun _ _ => 1
  | .affine => fun _ _ => 1
  | .bilinear => fun _ _ => 1

/-- A concrete engine returning the all-ones compact matrix (a unit
translation for the translation family) regardless of the images. -/
def engC : Engine :=
  ⟨fun _ _ t => (constCompact t, [], []), fun mov _ _ => mov⟩

/-- A compact matrix whose entries all equal a given value. -/
def discrCompact (v : ℚ) : (t : Transformation) → CompactType t
  | .translation => fun _ _ => v
  | .rigid_body => fun _ _ => v
  | .scaled_rotation => fun _ _ => v
  | .affine => fun _ _ => v
  | .bilinear => fun _ _ => v

/-- A concrete engine whose compact output records the reference image's
top-left pixel value, making the chosen reference observable. -/
def engD : Engine :=
  ⟨fun ref _ t => (discrCompact (ref.data 0 0) t, [], []), fun mov _ _ => mov⟩

/-- A 3-frame (axis 0) stack of 1×1 zero frames. -/
def imgW1 : Arr3 := ⟨3, 1, 1, fun _ _ _ => 0⟩

/-- A 2-frame (axis 0) stack of 1×1 zero frames. -/
def imgW2 : Arr3 := ⟨2, 1, 1, fun _ _ _ => 0⟩

/-- A single-frame (axis 0) stack. -/
def imgOne : Arr3 := ⟨1, 1, 1, fun _ _ _ => 0⟩

/-- A 2×2×2 stack whose mean along axis 0 differs from its mean along
axis 2 at position (0,0): entries are 2 where the last coordinate is 0. -/
def imgMean : Arr3 := ⟨2, 2, 2, fun _ _ k => if k = 0 then 2 else 0⟩

/-- A 3×2×2 all-zero stack (frames along axis 1 for the length test). -/
def imgRM : Arr3 := ⟨3, 2, 2, fun _ _ _ => 0⟩

/-- A 3×2×2 stack with constant value 5. -/
def imgConst : Arr3 := ⟨3, 2, 2, fun _ _ _ => 5⟩

/-- A reference-mode string outside {previous, first, mean}. -/
def strBogus : String := "bogus"

/-- The canonical unit-translation matrix (tx = ty = 1). -/
def wMat1 : M3 := fun i j => if i = j then 1 else if i.val < 2 ∧ j = 2 then 1 else 0

/-- The canonical translation matrix with tx = ty = 2. -/
def wMat2 : M3 := fun i j => if i = j then 1 else if i.val < 2 ∧ j = 2 then 2 else 0

/-- An example 2×3 compact matrix with pairwise distinct entries. -/
def cExA : Fin 2 → Fin 3 → ℚ := fun i j => (i.val : ℚ) + 10 * (j.val : ℚ) + 3

/-- The canonical matrix `engC` induces for the translation family. -/
def wA : M3 := translationS2L (fun _ _ => 1)

/-- The accumulated matrix at index 1 of the 3-frame `previous` run. -/
def wB : M3 := matmul wA idMat

/-- The accumulated matrix at index 2 of the 3-frame `previous` run. -/
def wC : M3 := matmul wA wB

/-- The pixel value `engD` records under `mean` mode: the (0,0) entry of
the elementwise mean of `imgMean` along axis 0. -/
def vMean : ℚ := (imgMean.meanAxis 0).data 0 0

/-- The canonical matrix stored for every frame of the `mean`-mode run. -/
def mMean : M3 := translationS2L (discrCompact vMean .translation)

/-- Witness for the `previous`-mode composition law on a concrete 3-frame
stack: index 2 holds the local matrix times the accumulated index-1 matrix. -/
theorem register_stack_previous_composes_witness :
    register_stack engC .translation imgW1 strPrevious 1 0 1 = .ok [idMat, wB, wC] ∧
    (∃ m, registerPure engC .translation
        ((workingStack imgW1 1 0).takeFrame (((2 : Nat) : Int) - 1) 0)
        ((workingStack imgW1 1 0).takeFrame ((2 : Nat) : Int) 0) = .ok m ∧
      [idMat, wB, wC].getD 2 idMat = matmul m ([idMat, wB, wC].getD 1 idMat)) := by
  have h : register_stack engC .translation imgW1 strPrevious 1 0 1 =
      .ok [idMat, wB, wC] := rfl
  exact ⟨h, register_stack_previous_composes engC .translation imgW1 1 0 1 _ h 2
    (by decide) (by decide)⟩

/-- C2 counterexample: with a moving-average window of 2 under `previous`
mode, the matrix at index 0 of the returned stack is the frame-0-to-last
registration result, not the identity. -/
theorem register_stack_ma_matrix0_not_identity :
    register_stack engC .translation imgW2 strPrevious 1 0 2 =
      .ok [wA, matmul wA wA] ∧ wA ≠ idMat :=
  ⟨rfl, by decide⟩

/-- Witness for the amended C2 on a concrete no-smoothing run. -/
theorem register_stack_previous_no_ma_matrix0_identity_witness :
    register_stack engC .translation imgW1 strPrevious 1 0 1 = .ok [idMat, wB, wC] ∧
    [idMat, wB, wC].getD 0 idMat = idMat := by
  have h : register_stack engC .translation imgW1 strPrevious 1 0 1 =
      .ok [idMat, wB, wC] := rfl
  exact ⟨h, register_stack_previous_no_ma_matrix0_identity engC .translation imgW1 1 0 1 _
    (by decide) h⟩

/-- C3: under `mean` mode the reference is `img.mean(axis=0)` even when the
registration axis is 2: the stored matrix records the reference's (0,0)
pixel, which equals the mean along axis 0 (= 2) and differs from the mean
along the requested axis 2 (= 1). -/
theorem register_stack_mean_uses_axis0 :
    register_stack engD .translation imgMean strMean 1 2 1 = .ok [mMean, mMean] ∧
    mMean 0 2 = (imgMean.meanAxis 0).data 0 0 ∧
    (imgMean.meanAxis 0).data 0 0 = 2 ∧
    (imgMean.meanAxis 2).data 0 0 = 1 := by
  refine ⟨rfl, rfl, ?_, ?_⟩
  · norm_num [Arr3.meanAxis, imgMean, Finset.sum_range_succ]
  · norm_num [Arr3.meanAxis, imgMean, Finset.sum_range_succ,
      if_neg (by decide : ¬ ((2 : Fin 3) = 0)), if_neg (by decide : ¬ ((2 : Fin 3) = 1))]

/-- C4 counterexample: with an invalid reference mode and a single-frame
stack, `register_stack` raises nothing at all and returns the identity
matrix stack. -/
theorem register_stack_invalid_reference_no_failure :
    register_stack engC .translation imgOne strBogus 1 0 1 = .ok [idMat] := rfl

/-- Witness for the amended C4 on a concrete two-frame stack. -/
theorem register_stack_invalid_reference_unbound_witness :
    register_stack engC .translation imgW2 strBogus 1 0 1 = .error errUnboundRef :=
  register_stack_invalid_reference_unbound engC .translation imgW2 strBogus 1 0 1
    (by decide) (by decide) (by decide) (by decide) (by decide)

/-- Witness for the conversion round trip at the affine family. -/
theorem matrix_conversion_round_trip_witness :
    Transformation.affine ≠ Transformation.bilinear ∧
    ((matrix_short_to_long .affine cExA).bind (matrix_long_to_short .affine) =
      .ok cExA) ∧
    isCanonicalForm .affine idMat ∧
    ((matrix_long_to_short .affine idMat).bind (matrix_short_to_long .affine) =
      .ok idMat) :=
  ⟨by decide, (matrix_conversion_round_trip .affine (by decide)).1 cExA, ⟨rfl, rfl, rfl⟩,
    (matrix_conversion_round_trip .affine (by decide)).2 idMat ⟨rfl, rfl, rfl⟩⟩

/-- C6: with moving averaging along axis 1, `register_stack` returns 4
matrices for a stack with only 2 frames along axis 1: `running_mean` pads
axis 1 but slices the cumulative sum along axis 0, changing the shape. -/
theorem register_stack_ma_length_mismatch :
    register_stack engC .translation imgRM strPrevious 1 1 2 =
      .ok [wA, matmul wA wA, matmul wA (matmul wA wA),
        matmul wA (matmul wA (matmul wA wA))] ∧
    [wA, matmul wA wA, matmul wA (matmul wA wA),
        matmul wA (matmul wA (matmul wA wA))].length = 4 ∧
    imgRM.dim 1 = 2 :=
  ⟨rfl, rfl, rfl⟩

/-- C8: `running_mean` on the constant-5 stack `imgConst` (shape 3×2×2)
along axis 1 returns shape 1×4×2 with entry 0 — neither the shape nor the
constant value is preserved. -/
theorem running_mean_constant_not_preserved :
    imgConst.s0 = 3 ∧ imgConst.s1 = 2 ∧ imgConst.s2 = 2 ∧ imgConst.data 0 0 0 = 5 ∧
    (running_mean imgConst 2 1).s0 = 1 ∧ (running_mean imgConst 2 1).s1 = 4 ∧
    (running_mean imgConst 2 1).s2 = 2 ∧ (running_mean imgConst 2 1).data 0 0 0 = 0 := by
  refine ⟨rfl, rfl, rfl, rfl, rfl, rfl, rfl, ?_⟩
  norm_num [running_mean, cumsumAxis, pad_edge, padIdx, imgConst, Finset.sum_range_succ]

/-- Witness for C10 on a concrete 2-frame stack with window 2. -/
theorem register_stack_previous_ma_frame0_ref_last_witness :
    register_stack engC .translation imgW2 strPrevious 1 0 2 = .ok [wA, matmul wA wA] ∧
    ([wA, matmul wA wA].length = (running_mean imgW2 2 0).dim 0 ∧
      (∃ m, registerPure engC .translation
          ((running_mean imgW2 2 0).takeFrame (-1 : Int) 0)
          ((running_mean imgW2 2 0).takeFrame (0 : Int) 0) = .ok m ∧
        [wA, matmul wA wA].getD 0 idMat = m) ∧
      (running_mean imgW2 2 0).takeFrame (-1 : Int) 0 =
        (running_mean imgW2 2 0).takeFrame
          ((([wA, matmul wA wA].length : Nat) : Int) - 1) 0) := by
  have h : register_stack engC .translation imgW2 strPrevious 1 0 2 =
      .ok [wA, matmul wA wA] := rfl
  exact ⟨h, register_stack_previous_ma_frame0_ref_last engC .translation imgW2 1 0 2 _
    (by decide) h (by decide)⟩
